import Mathlib

/-!
Shallow embedding of the task-manager core (Go): the `tasks` package model
(`task.go`), the context-aware `Service` layer (`service.go`: `ListTasks`,
`GetTask`, `CreateTask`, `UpdateTask`, `DeleteTask`, `calcNextID`,
`NewService`) and the context-aware `TaskStore.LoadTasks`.

Machine integers (Go `int`) are modelled as `Int`.  A Go `context.Context`
is modelled by the sequence of values `ctx.Err()` returns at the successive
checkpoints an operation consults (`Ctx := Nat → Option GoError`); `none`
means "not cancelled at that checkpoint".  `Storage.Save` is modelled as an
oracle `List Task → Option GoError` (`none` = the write succeeded), and each
mutating operation additionally records the exact argument lists it passed
to `Storage.Save`, so that "no Storage call happened" is expressible.
-/

namespace TaskManager

/-- Errors visible to the core: the two context errors (`context.Canceled`,
`context.DeadlineExceeded`) and opaque I/O / parse errors. -/
inductive GoError where
  | canceled
  | deadlineExceeded
  | ioError (code : Nat)
  | parseError (code : Nat)
deriving DecidableEq, Repr

/-- The value `ctx.Err()` yields at the k-th checkpoint an operation
consults; `none` = not cancelled there. -/
abbrev Ctx := Nat → Option GoError

/-- A context that is never cancelled. -/
def ctxNone : Ctx := fun _ => none

/-- `Task` from `task.go`: `ID int`, `Title string`, `Done bool`,
`Priority string`. -/
structure Task where
  id : Int
  title : String
  done : Bool
  priority : String
deriving DecidableEq, Repr

/-- The Go zero value `Task{}`. -/
def zeroTask : Task := ⟨0, "", false, ""⟩

/-- `UpdateTaskRequest` from `task.go`: every field a pointer, `nil`
(= `none`) meaning "absent". -/
structure UpdateTaskRequest where
  title : Option String
  done : Option Bool
  priority : Option String
deriving DecidableEq, Repr

/-- The mutable fields of `Service` (`service.go`): the in-memory
collection and the next-ID counter, guarded together by one lock. -/
structure Service where
  tasks : List Task
  nextID : Int
deriving DecidableEq, Repr

instance {ε α : Type} [DecidableEq ε] [DecidableEq α] :
    DecidableEq (Except ε α)
  | .error x, .error y => decidable_of_iff (x = y) (by simp)
  | .error _, .ok _ => .isFalse (fun h => Except.noConfusion h)
  | .ok _, .error _ => .isFalse (fun h => Except.noConfusion h)
  | .ok x, .ok y => decidable_of_iff (x = y) (by simp)

/-- Outcome of a mutating operation: the returned value or error, the
service state after the call, and the successive arguments passed to
`Storage.Save` during the call (in order). -/
structure MutResult (α : Type) where
  res : Except GoError α
  state : Service
  saves : List (List Task)
deriving DecidableEq, Repr

/-- Outcome of `ListTasks`: returned value or error, plus whether the
store's slow-I/O simulation was invoked. -/
structure ListResult where
  res : Except GoError (List Task)
  slowCalled : Bool
deriving DecidableEq, Repr

/-- A save oracle under which every write succeeds. -/
def saveOk : List Task → Option GoError := fun _ => none

/-- `calcNextID` (`service.go`): running maximum of the IDs starting from 0,
plus one. -/
def calcNextID (ts : List Task) : Int :=
  (ts.foldl (fun maxID t => if t.id > maxID then t.id else maxID) 0) + 1

/-- `NewService` (`service.go`) given the outcome of `store.LoadTasks`:
propagate a load error, otherwise start with the loaded collection and
`nextID = calcNextID loaded`. -/
def NewService (load : Except GoError (List Task)) : Except GoError Service :=
  match load with
  | .error e => .error e
  | .ok loaded => .ok ⟨loaded, calcNextID loaded⟩

/-- The state `NewService` builds from a successfully loaded collection. -/
def initService (loaded : List Task) : Service :=
  ⟨loaded, calcNextID loaded⟩

/-- `ListTasks` (`service.go`): check `ctx.Err()` on entry; if `delay > 0`
run `SimulateSlowIO` (modelled by the oracle `slowRes`); check `ctx.Err()`
again; then return a copy of the collection. -/
def ListTasks (ctx : Ctx) (slowRes : Option GoError) (delay : Int)
    (s : Service) : ListResult :=
  match ctx 0 with
  | some e => ⟨.error e, false⟩
  | none =>
    if delay > 0 then
      match slowRes with
      | some e => ⟨.error e, true⟩
      | none =>
        match ctx 1 with
        | some e => ⟨.error e, true⟩
        | none => ⟨.ok s.tasks, true⟩
    else
      match ctx 1 with
      | some e => ⟨.error e, false⟩
      | none => ⟨.ok s.tasks, false⟩

/-- The `for` loop of `GetTask`/`UpdateTask`/`DeleteTask`: first element
whose `ID` matches, if any. -/
def findTask (ts : List Task) (id : Int) : Option Task :=
  match ts with
  | [] => none
  | t :: rest => if t.id = id then some t else findTask rest id

/-- `GetTask` (`service.go`): entry `ctx.Err()` check, then linear scan;
absent ID yields `(Task{}, false, nil)`. -/
def GetTask (ctx : Ctx) (s : Service) (id : Int) :
    Except GoError (Task × Bool) :=
  match ctx 0 with
  | some e => .error e
  | none =>
    match findTask s.tasks id with
    | some t => .ok (t, true)
    | none => .ok (zeroTask, false)

/-- `CreateTask` (`service.go`): entry `ctx.Err()` check; build `created`
from `s.nextID` and the incoming `Title`/`Done` (the Go struct literal
omits `Priority`, so it stays the zero value `""`); append to a candidate
copy; save; only on success commit the candidate and increment `nextID`. -/
def CreateTask (ctx : Ctx) (save : List Task → Option GoError)
    (s : Service) (incoming : Task) : MutResult Task :=
  match ctx 0 with
  | some e => ⟨.error e, s, []⟩
  | none =>
    let created : Task :=
      { id := s.nextID, title := incoming.title, done := incoming.done,
        priority := "" }
    let candidate := s.tasks ++ [created]
    match save candidate with
    | some e => ⟨.error e, s, [candidate]⟩
    | none => ⟨.ok created, ⟨candidate, s.nextID + 1⟩, [candidate]⟩

/-- The pointer-guarded field merge of `UpdateTask`: overwrite exactly the
fields the request carries (`!= nil`). -/
def applyUpdate (t : Task) (r : UpdateTaskRequest) : Task :=
  let t1 := match r.title with
    | some v => { t with title := v }
    | none => t
  let t2 := match r.done with
    | some v => { t1 with done := v }
    | none => t1
  match r.priority with
  | some v => { t2 with priority := v }
  | none => t2

/-- The find-index-then-replace step of `UpdateTask`: locate the first
element with the given `ID`; if found, return the merged element together
with the candidate list in which exactly that position is replaced. -/
def updateFirst (ts : List Task) (id : Int) (r : UpdateTaskRequest) :
    Option (Task × List Task) :=
  match ts with
  | [] => none
  | t :: rest =>
    if t.id = id then
      let u := applyUpdate t r
      some (u, u :: rest)
    else
      match updateFirst rest id r with
      | none => none
      | some (u, rest2) => some (u, t :: rest2)

/-- `UpdateTask` (`service.go`): entry `ctx.Err()` check; locate the ID
(absent yields `(Task{}, false, nil)` with no save); merge the present
fields onto a copy; save the candidate; commit only on success. -/
def UpdateTask (ctx : Ctx) (save : List Task → Option GoError)
    (s : Service) (id : Int) (incoming : UpdateTaskRequest) :
    MutResult (Task × Bool) :=
  match ctx 0 with
  | some e => ⟨.error e, s, []⟩
  | none =>
    match updateFirst s.tasks id incoming with
    | none => ⟨.ok (zeroTask, false), s, []⟩
    | some (updated, candidate) =>
      match save candidate with
      | some e => ⟨.error e, s, [candidate]⟩
      | none => ⟨.ok (updated, true), ⟨candidate, s.nextID⟩, [candidate]⟩

/-- The find-index-then-splice step of `DeleteTask`: remove the first
element with the given `ID`, keeping the order of the rest. -/
def deleteFirst (ts : List Task) (id : Int) : Option (List Task) :=
  match ts with
  | [] => none
  | t :: rest =>
    if t.id = id then some rest
    else
      match deleteFirst rest id with
      | none => none
      | some rest2 => some (t :: rest2)

/-- `DeleteTask` (`service.go`): entry `ctx.Err()` check; locate the ID
(absent yields `(false, nil)` with no save); save the spliced candidate;
commit only on success. -/
def DeleteTask (ctx : Ctx) (save : List Task → Option GoError)
    (s : Service) (id : Int) : MutResult Bool :=
  match ctx 0 with
  | some e => ⟨.error e, s, []⟩
  | none =>
    match deleteFirst s.tasks id with
    | none => ⟨.ok false, s, []⟩
    | some candidate =>
      match save candidate with
      | some e => ⟨.error e, s, [candidate]⟩
      | none => ⟨.ok true, ⟨candidate, s.nextID⟩, [candidate]⟩

/-- The outcome of `os.ReadFile` on the backing file: absent, failed with
an I/O error, or present with some content. -/
inductive FileState where
  | absent
  | readFailure (e : GoError)
  | present (content : String)
deriving DecidableEq, Repr

/-- Whitespace in the sense of Go's `unicode.IsSpace` (the Unicode
White_Space property): U+0009–U+000D, space, next line U+0085, no-break
space U+00A0, ogham space U+1680, the en/em spaces U+2000–U+200A, line and
paragraph separators U+2028/U+2029, narrow no-break space U+202F, medium
mathematical space U+205F and ideographic space U+3000. -/
def isSpaceGo (c : Char) : Bool :=
  let n := c.toNat
  if (0x09 ≤ n ∧ n ≤ 0x0d) ∨ n = 0x20 ∨ n = 0x85 ∨ n = 0xa0 ∨ n = 0x1680 ∨
      (0x2000 ≤ n ∧ n ≤ 0x200a) ∨ n = 0x2028 ∨ n = 0x2029 ∨ n = 0x202f ∨
      n = 0x205f ∨ n = 0x3000
  then true else false

/-- The `len(strings.TrimSpace(data)) == 0` test of `LoadTasks`: content
consisting only of whitespace. -/
def blank (s : String) : Bool := s.toList.all isSpaceGo

/-- `TaskStore.LoadTasks` (context-aware version): `ctx.Err()` checks on
entry, after the read lock, after the file read and after unmarshalling; a
missing file or blank content yields an empty collection; `json.Unmarshal`
is modelled by the `unmarshal` oracle and its error propagates. -/
def LoadTasks (ctx : Ctx) (file : FileState)
    (unmarshal : String → Except GoError (List Task)) :
    Except GoError (List Task) :=
  match ctx 0 with
  | some e => .error e
  | none =>
    match ctx 1 with
    | some e => .error e
    | none =>
      match file with
      | .absent => .ok []
      | .readFailure e => .error e
      | .present data =>
        match ctx 2 with
        | some e => .error e
        | none =>
          if blank data then .ok []
          else
            match unmarshal data with
            | .error e => .error e
            | .ok tasks =>
              match ctx 3 with
              | some e => .error e
              | none => .ok tasks

/-- One mutating call against the service, with its own context and save
oracle: the alphabet of in-session histories. -/
inductive Op where
  | createOp (ctx : Ctx) (save : List Task → Option GoError) (incoming : Task)
  | updateOp (ctx : Ctx) (save : List Task → Option GoError) (id : Int)
      (incoming : UpdateTaskRequest)
  | deleteOp (ctx : Ctx) (save : List Task → Option GoError) (id : Int)

/-- The service state after one mutating call. -/
def step (s : Service) : Op → Service
  | .createOp ctx save inc => (CreateTask ctx save s inc).state
  | .updateOp ctx save id inc => (UpdateTask ctx save s id inc).state
  | .deleteOp ctx save id => (DeleteTask ctx save s id).state

/-- The service state after a whole history of mutating calls. -/
def run (s : Service) (ops : List Op) : Service := ops.foldl step s

/-- The IDs currently in a service's collection. -/
def ids (s : Service) : List Int := s.tasks.map Task.id

/-- The service invariant: IDs pairwise distinct, and every ID below the
counter. -/
def Inv (s : Service) : Prop :=
  (ids s).Nodup ∧ ∀ x ∈ ids s, x < s.nextID

/-- The spec's "max ID in the collection at load time" (0 for an empty
collection, matching the positive-ID data model). -/
def maxLoadedID (ts : List Task) : Int :=
  ts.foldl (fun m t => max m t.id) 0

/-- A sequence of Create calls in which no cancellation fires and every
save succeeds. -/
def successfulCreates (s : Service) (incs : List Task) : Service :=
  incs.foldl (fun st inc => (CreateTask ctxNone saveOk st inc).state) s

/-- The loaded collection of the spec's gap scenario: IDs 1, 2 and 5. -/
def demoTasks : List Task :=
  [⟨1, "a", false, "low"⟩, ⟨2, "b", false, "medium"⟩, ⟨5, "c", true, "high"⟩]

/-- An incoming task used in concrete scenarios. -/
def incT : Task := ⟨0, "t", false, "low"⟩

/-- First session of the ID-reuse scenario: two successful creates starting
from an empty store. -/
def sessionOne : Service := successfulCreates (initService []) [incT, incT]

/-- The successful delete of ID 2 ending the first session; its committed
collection is exactly what `SaveTasks` persisted. -/
def deleteTwo : MutResult Bool := DeleteTask ctxNone saveOk sessionOne 2

/-- A service re-initialised (`NewService`) from the collection persisted
at the end of the first session. -/
def sessionTwo : Service := initService deleteTwo.state.tasks

/-! ## Helper lemmas -/

theorem applyUpdate_eq (t : Task) (r : UpdateTaskRequest) :
    applyUpdate t r =
      ⟨t.id, r.title.getD t.title, r.done.getD t.done,
        r.priority.getD t.priority⟩ := by
  obtain ⟨rt, rd, rp⟩ := r
  cases rt <;> cases rd <;> cases rp <;> rfl

theorem applyUpdate_id (t : Task) (r : UpdateTaskRequest) :
    (applyUpdate t r).id = t.id := by
  rw [applyUpdate_eq]

theorem updateFirst_of_find (ts : List Task) (id : Int) (r : UpdateTaskRequest)
    (old : Task) (h : findTask ts id = some old) :
    ∃ ts2, updateFirst ts id r = some (applyUpdate old r, ts2) ∧
      findTask ts2 id = some (applyUpdate old r) ∧
      ts2.map Task.id = ts.map Task.id := by
  induction ts with
  | nil => simp [findTask] at h
  | cons t rest ih =>
    by_cases hid : t.id = id
    · rw [findTask, if_pos hid] at h
      obtain rfl : t = old := by injection h
      refine ⟨applyUpdate t r :: rest, ?_, ?_, ?_⟩
      · rw [updateFirst, if_pos hid]
      · have hu : (applyUpdate t r).id = id := by rw [applyUpdate_id, hid]
        rw [findTask, if_pos hu]
      · simp [applyUpdate_id]
    · rw [findTask, if_neg hid] at h
      obtain ⟨ts2, h1, h2, h3⟩ := ih h
      refine ⟨t :: ts2, ?_, ?_, ?_⟩
      · rw [updateFirst, if_neg hid, h1]
      · rw [findTask, if_neg hid]; exact h2
      · simp [h3]

theorem updateFirst_ids (ts : List Task) (id : Int) (r : UpdateTaskRequest) :
    ∀ u ts2, updateFirst ts id r = some (u, ts2) →
      ts2.map Task.id = ts.map Task.id := by
  induction ts with
  | nil => intro u ts2 h; simp [updateFirst] at h
  | cons t rest ih =>
    intro u ts2 h
    by_cases hid : t.id = id
    · rw [updateFirst, if_pos hid] at h
      simp only [Option.some.injEq, Prod.mk.injEq] at h
      obtain ⟨h1, h2⟩ := h
      subst h2
      simp [applyUpdate_id]
    · rw [updateFirst, if_neg hid] at h
      cases hrec : updateFirst rest id r with
      | none => rw [hrec] at h; exact absurd h (by simp)
      | some p =>
        obtain ⟨u0, rest2⟩ := p
        rw [hrec] at h
        simp only [Option.some.injEq, Prod.mk.injEq] at h
        obtain ⟨h1, h2⟩ := h
        subst h2
        simp [ih u0 rest2 hrec]

theorem updateFirst_none_req (ts : List Task) (id : Int) (old : Task)
    (h : findTask ts id = some old) :
    updateFirst ts id ⟨none, none, none⟩ = some (old, ts) := by
  induction ts with
  | nil => simp [findTask] at h
  | cons t rest ih =>
    by_cases hid : t.id = id
    · rw [findTask, if_pos hid] at h
      obtain rfl : t = old := by injection h
      rw [updateFirst, if_pos hid]
      rfl
    · rw [findTask, if_neg hid] at h
      rw [updateFirst, if_neg hid, ih h]

theorem deleteFirst_sublist (ts : List Task) (id : Int) :
    ∀ ts2, deleteFirst ts id = some ts2 → ts2.Sublist ts := by
  induction ts with
  | nil => intro ts2 h; simp [deleteFirst] at h
  | cons t rest ih =>
    intro ts2 h
    by_cases hid : t.id = id
    · rw [deleteFirst, if_pos hid] at h
      obtain rfl : rest = ts2 := by injection h
      exact List.sublist_cons_self _ _
    · rw [deleteFirst, if_neg hid] at h
      cases hrec : deleteFirst rest id with
      | none => rw [hrec] at h; exact absurd h (by simp)
      | some rest2 =>
        rw [hrec] at h
        obtain rfl : ts2 = t :: rest2 := by injection h with h1; cases h1; rfl
        exact (ih rest2 hrec).cons₂ t

theorem goFold_ge_init (L : List Task) :
    ∀ m : Int,
      m ≤ L.foldl (fun maxID t => if t.id > maxID then t.id else maxID) m := by
  induction L with
  | nil => intro m; exact le_refl m
  | cons t rest ih =>
    intro m
    refine le_trans ?_ (ih (if t.id > m then t.id else m))
    split
    · exact le_of_lt (by assumption)
    · exact le_refl m

theorem mem_le_goFold (L : List Task) :
    ∀ (m : Int) (t : Task), t ∈ L →
      t.id ≤ L.foldl (fun maxID t => if t.id > maxID then t.id else maxID) m := by
  induction L with
  | nil => intro m t h; exact absurd h (List.not_mem_nil t)
  | cons t0 rest ih =>
    intro m t h
    rcases List.mem_cons.mp h with rfl | hmem
    · refine le_trans ?_ (goFold_ge_init rest (if t.id > m then t.id else m))
      split
      · exact le_refl t.id
      · exact le_of_not_lt (by assumption)
    · rw [List.foldl_cons]
      exact ih (if t0.id > m then t0.id else m) t hmem

theorem goFold_attained (L : List Task) :
    ∀ m : Int,
      L.foldl (fun maxID t => if t.id > maxID then t.id else maxID) m = m ∨
      ∃ t ∈ L,
        L.foldl (fun maxID t => if t.id > maxID then t.id else maxID) m
          = t.id := by
  induction L with
  | nil => intro m; exact Or.inl rfl
  | cons t rest ih =>
    intro m
    rcases ih (if t.id > m then t.id else m) with heq | ⟨t2, hmem, heq⟩
    · by_cases hgt : t.id > m
      · rw [List.foldl_cons, heq, if_pos hgt]
        exact Or.inr ⟨t, List.mem_cons_self t rest, rfl⟩
      · rw [List.foldl_cons, heq, if_neg hgt]
        exact Or.inl rfl
    · rw [List.foldl_cons, heq]
      exact Or.inr ⟨t2, List.mem_cons_of_mem t hmem, rfl⟩

theorem goFold_eq_maxFold (L : List Task) :
    ∀ m : Int,
      L.foldl (fun maxID t => if t.id > maxID then t.id else maxID) m
        = L.foldl (fun mm t => max mm t.id) m := by
  induction L with
  | nil => intro m; rfl
  | cons t rest ih =>
    intro m
    rw [List.foldl_cons, List.foldl_cons, ih]
    congr 1
    rcases le_or_lt t.id m with h | h
    · rw [if_neg (not_lt.mpr h), max_eq_left h]
    · rw [if_pos h, max_eq_right (le_of_lt h)]

theorem calcNextID_eq_max (L : List Task) :
    calcNextID L = maxLoadedID L + 1 := by
  unfold calcNextID maxLoadedID
  rw [goFold_eq_maxFold]

theorem successfulCreates_nextID (incs : List Task) :
    ∀ s : Service,
      (successfulCreates s incs).nextID = s.nextID + incs.length := by
  induction incs with
  | nil => intro s; simp [successfulCreates]
  | cons inc rest ih =>
    intro s
    have h1 : successfulCreates s (inc :: rest)
        = successfulCreates ((CreateTask ctxNone saveOk s inc).state) rest :=
      rfl
    have h2 : (CreateTask ctxNone saveOk s inc).state
        = ⟨s.tasks ++ [⟨s.nextID, inc.title, inc.done, ""⟩], s.nextID + 1⟩ :=
      rfl
    rw [h1, ih, h2]
    simp only [List.length_cons]
    push_cast
    ring

theorem create_state_cases (ctx : Ctx) (save : List Task → Option GoError)
    (s : Service) (inc : Task) :
    (CreateTask ctx save s inc).state = s ∨
    (CreateTask ctx save s inc).state
      = ⟨s.tasks ++ [⟨s.nextID, inc.title, inc.done, ""⟩], s.nextID + 1⟩ := by
  simp only [CreateTask]
  cases ctx 0 with
  | some e => exact Or.inl rfl
  | none =>
    cases save (s.tasks ++ [⟨s.nextID, inc.title, inc.done, ""⟩]) with
    | some e => exact Or.inl rfl
    | none => exact Or.inr rfl

theorem update_state_cases (ctx : Ctx) (save : List Task → Option GoError)
    (s : Service) (id : Int) (r : UpdateTaskRequest) :
    (UpdateTask ctx save s id r).state = s ∨
    ∃ u ts2, updateFirst s.tasks id r = some (u, ts2) ∧
      (UpdateTask ctx save s id r).state = ⟨ts2, s.nextID⟩ := by
  simp only [UpdateTask]
  split
  · exact Or.inl rfl
  · split
    · exact Or.inl rfl
    · rename_i u ts2 hu
      split
      · exact Or.inl rfl
      · exact Or.inr ⟨u, ts2, hu, rfl⟩

theorem delete_state_cases (ctx : Ctx) (save : List Task → Option GoError)
    (s : Service) (id : Int) :
    (DeleteTask ctx save s id).state = s ∨
    ∃ ts2, deleteFirst s.tasks id = some ts2 ∧
      (DeleteTask ctx save s id).state = ⟨ts2, s.nextID⟩ := by
  simp only [DeleteTask]
  split
  · exact Or.inl rfl
  · split
    · exact Or.inl rfl
    · rename_i ts2 hd
      split
      · exact Or.inl rfl
      · exact Or.inr ⟨ts2, hd, rfl⟩

theorem step_facts (s : Service) (op : Op) :
    (Inv s → Inv (step s op)) ∧ s.nextID ≤ (step s op).nextID ∧
    ∀ d : Int, d < s.nextID → d ∉ ids s → d ∉ ids (step s op) := by
  cases op with
  | createOp ctx save inc =>
    have hstep : step s (.createOp ctx save inc) = (CreateTask ctx save s inc).state :=
      rfl
    rcases create_state_cases ctx save s inc with h | h <;> rw [hstep, h]
    · exact ⟨fun hi => hi, le_refl _, fun d _ h2 => h2⟩
    · have hids :
          ids (⟨s.tasks ++ [⟨s.nextID, inc.title, inc.done, ""⟩],
            s.nextID + 1⟩ : Service)
            = ids s ++ [s.nextID] := by
        simp [ids]
      refine ⟨fun hi => ?_, by simp, fun d hd h2 => ?_⟩
      · obtain ⟨hnd, hlt⟩ := hi
        constructor
        · rw [hids]
          refine hnd.append (List.nodup_singleton _) ?_
          intro a ha hb
          rw [List.mem_singleton] at hb
          subst hb
          exact absurd (hlt _ ha) (lt_irrefl _)
        · intro x hx
          rw [hids] at hx
          rcases List.mem_append.mp hx with hx | hx
          · calc x < s.nextID := hlt x hx
              _ < s.nextID + 1 := by omega
          · rw [List.mem_singleton] at hx
            subst hx
            show s.nextID < s.nextID + 1
            omega
      · rw [hids]
        intro hmem
        rcases List.mem_append.mp hmem with hx | hx
        · exact h2 hx
        · rw [List.mem_singleton] at hx
          subst hx
          exact absurd hd (lt_irrefl _)
  | updateOp ctx save id r =>
    have hstep : step s (.updateOp ctx save id r) = (UpdateTask ctx save s id r).state :=
      rfl
    rcases update_state_cases ctx save s id r with h | ⟨u, ts2, hu, h⟩ <;>
      rw [hstep, h]
    · exact ⟨fun hi => hi, le_refl _, fun d _ h2 => h2⟩
    · have hids : ids (⟨ts2, s.nextID⟩ : Service) = ids s :=
        updateFirst_ids s.tasks id r u ts2 hu
      refine ⟨fun hi => ?_, le_refl _, fun d hd h2 => ?_⟩
      · obtain ⟨hnd, hlt⟩ := hi
        exact ⟨by rw [hids]; exact hnd, fun x hx => hlt x (by rw [hids] at hx; exact hx)⟩
      · rw [hids]; exact h2
  | deleteOp ctx save id =>
    have hstep : step s (.deleteOp ctx save id) = (DeleteTask ctx save s id).state :=
      rfl
    rcases delete_state_cases ctx save s id with h | ⟨ts2, hd2, h⟩ <;>
      rw [hstep, h]
    · exact ⟨fun hi => hi, le_refl _, fun d _ h2 => h2⟩
    · have hsub : (ids (⟨ts2, s.nextID⟩ : Service)).Sublist (ids s) :=
        (deleteFirst_sublist s.tasks id ts2 hd2).map Task.id
      refine ⟨fun hi => ?_, le_refl _, fun d hd h2 hmem => ?_⟩
      · obtain ⟨hnd, hlt⟩ := hi
        exact ⟨hnd.sublist hsub, fun x hx => hlt x (hsub.subset hx)⟩
      · exact h2 (hsub.subset hmem)

theorem run_facts (ops : List Op) :
    ∀ s : Service,
      (Inv s → Inv (run s ops)) ∧ s.nextID ≤ (run s ops).nextID ∧
      ∀ d : Int, d < s.nextID → d ∉ ids s → d ∉ ids (run s ops) := by
  induction ops with
  | nil => intro s; exact ⟨fun hi => hi, le_refl _, fun d _ h => h⟩
  | cons op rest ih =>
    intro s
    have hrun : run s (op :: rest) = run (step s op) rest := rfl
    obtain ⟨sInv, sMono, sFresh⟩ := step_facts s op
    obtain ⟨rInv, rMono, rFresh⟩ := ih (step s op)
    refine ⟨fun h => ?_, ?_, fun d hd hnot => ?_⟩
    · rw [hrun]; exact rInv (sInv h)
    · rw [hrun]; exact le_trans sMono rMono
    · rw [hrun]
      exact rFresh d (lt_of_lt_of_le hd sMono) (sFresh d hd hnot)

/-! ## Claim theorems -/

/-- Claim C1: starting from an empty store, `Init` yields an empty
collection with `nextID = 1`, and `Create` with title "Buy milk" and
priority "low" returns the task with id 1, title "Buy milk", `done =
false`, persisting exactly one record with id 1 — except that the record
returned and persisted by `CreateTask` carries priority `""`, not the
supplied "low": the Go struct literal in `CreateTask` omits the `Priority`
field, so the validated priority is dropped.  This theorem evaluates the
code on the claim's exact scenario and exhibits the divergence. -/
theorem c1_create_drops_priority :
    NewService (.ok []) = .ok ⟨[], 1⟩
    ∧ (CreateTask ctxNone saveOk ⟨[], 1⟩ ⟨0, "Buy milk", false, "low"⟩).res
        = .ok ⟨1, "Buy milk", false, ""⟩
    ∧ (CreateTask ctxNone saveOk ⟨[], 1⟩ ⟨0, "Buy milk", false, "low"⟩).saves
        = [[⟨1, "Buy milk", false, ""⟩]]
    ∧ ("" : String) ≠ "low" :=
  ⟨rfl, rfl, rfl, by decide⟩

/-- Claim C2, counterexample: loading the collection with the single ID 1
(max ID = 1) and performing N = 1 successful create leaves `nextID = 3`,
not (max ID at load) + N = 2, so the claim as stated is false. -/
theorem c2_counterexample :
    maxLoadedID [⟨1, "a", false, "low"⟩] = 1
    ∧ (successfulCreates (initService [⟨1, "a", false, "low"⟩])
        [⟨0, "b", false, "low"⟩]).nextID = 3
    ∧ (3 : Int) ≠ 1 + 1 := by
  decide

/-- Claim C2, amended: after N successful creates since the last load, the
`nextID` counter equals (max ID in the collection at load time) + N + 1;
equivalently, the k-th create since the load assigns ID (max at load) + k
and the counter always stays one ahead of the last assigned ID. -/
theorem c2_nextid_after_creates (L incs : List Task) :
    (successfulCreates (initService L) incs).nextID
      = maxLoadedID L + 1 + incs.length := by
  rw [successfulCreates_nextID]
  have h : (initService L).nextID = calcNextID L := rfl
  rw [h, calcNextID_eq_max]

/-- Claim C3, counterexample: IDs are reused across a re-`Init`.  In a
first session from an empty store two creates assign IDs 1 and 2; deleting
ID 2 succeeds and commits (= persists) the collection with just ID 1;
re-initialising from that persisted collection recomputes `nextID =
calcNextID = 2`, and the very next create assigns the previously deleted
ID 2 again. -/
theorem c3_counterexample :
    sessionOne.tasks.map Task.id = [1, 2]
    ∧ deleteTwo.res = .ok true
    ∧ deleteTwo.state.tasks.map Task.id = [1]
    ∧ sessionTwo.nextID = 2
    ∧ (CreateTask ctxNone saveOk sessionTwo incT).res
        = .ok ⟨2, "t", false, ""⟩ := by
  decide

/-- Claim C3, amended: within a single service instance (no re-`Init`),
any state satisfying the invariant (pairwise-distinct IDs, all IDs below
`nextID`) keeps it under every sequence of Create/Update/Delete calls with
arbitrary contexts and save outcomes; `nextID` never decreases; and an ID
absent from the collection and below `nextID` (in particular any deleted
ID) is never present again — deleted IDs are never reassigned in-session.
Across a re-`Init`, `calcNextID` recomputes from the surviving maximum, so
deleted IDs above it can be reused (see the counterexample). -/
theorem c3_in_session (s : Service) (ops : List Op) (d : Int) :
    (Inv s → Inv (run s ops))
    ∧ s.nextID ≤ (run s ops).nextID
    ∧ (d < s.nextID → d ∉ ids s → d ∉ ids (run s ops)) := by
  obtain ⟨h1, h2, h3⟩ := run_facts ops s
  exact ⟨h1, h2, h3 d⟩

/-- Claim C3, witness: concrete instance of the in-session theorem — from
state ⟨[], 2⟩ (ID 1 just deleted), a create assigns ID 2, never ID 1. -/
theorem c3_in_session_witness :
    (1 : Int) ∉ ids (run ⟨[], 2⟩ [.createOp ctxNone saveOk incT]) :=
  (c3_in_session ⟨[], 2⟩ [.createOp ctxNone saveOk incT] 1).2.2
    (by decide) (by decide)

/-- Claim C4: for each mutation (Create, Update, Delete), when
`Storage.Save` fails the in-memory state (collection and counter) is left
exactly as before the call, and whenever a save was attempted the save
error is what the operation returns. -/
theorem c4_save_error_no_mutation (ctx : Ctx)
    (save : List Task → Option GoError) (s : Service) (inc : Task)
    (id : Int) (r : UpdateTaskRequest) (e : GoError)
    (hsave : ∀ c, save c = some e) :
    ((CreateTask ctx save s inc).state = s
      ∧ ((CreateTask ctx save s inc).saves ≠ [] →
          (CreateTask ctx save s inc).res = .error e))
    ∧ ((UpdateTask ctx save s id r).state = s
      ∧ ((UpdateTask ctx save s id r).saves ≠ [] →
          (UpdateTask ctx save s id r).res = .error e))
    ∧ ((DeleteTask ctx save s id).state = s
      ∧ ((DeleteTask ctx save s id).saves ≠ [] →
          (DeleteTask ctx save s id).res = .error e)) := by
  refine ⟨⟨?_, ?_⟩, ⟨?_, ?_⟩, ⟨?_, ?_⟩⟩
  · simp only [CreateTask]
    split
    · rfl
    · rw [hsave]
  · simp only [CreateTask]
    split
    · intro h; exact absurd rfl h
    · rw [hsave]; intro _; rfl
  · simp only [UpdateTask]
    split
    · rfl
    · split
      · rfl
      · rw [hsave]
  · simp only [UpdateTask]
    split
    · intro h; exact absurd rfl h
    · split
      · intro h; exact absurd rfl h
      · rw [hsave]; intro _; rfl
  · simp only [DeleteTask]
    split
    · rfl
    · split
      · rfl
      · rw [hsave]
  · simp only [DeleteTask]
    split
    · intro h; exact absurd rfl h
    · split
      · intro h; exact absurd rfl h
      · rw [hsave]; intro _; rfl

/-- Claim C4, witness: with an always-failing save, a create from ⟨[], 1⟩
leaves the state exactly ⟨[], 1⟩. -/
theorem c4_save_error_no_mutation_witness :
    (CreateTask ctxNone (fun _ => some (.ioError 7)) ⟨[], 1⟩ incT).state
      = ⟨[], 1⟩ :=
  (c4_save_error_no_mutation ctxNone (fun _ => some (.ioError 7)) ⟨[], 1⟩
      incT 1 ⟨none, none, none⟩ (.ioError 7) (fun _ => rfl)).1.1

/-- Claim C5: an update on an existing ID merges field-by-field — each
field explicitly present in the partial request takes the request's value
(`Option.getD` selects it), each absent field retains the stored value,
and the ID is taken from the stored record, never from the request (the
request has no ID at all); the merged record is both returned and found in
the committed collection under the same ID. -/
theorem c5_update_merge (ctx : Ctx) (save : List Task → Option GoError)
    (s : Service) (id : Int) (r : UpdateTaskRequest) (old : Task)
    (hctx : ctx 0 = none) (hs : ∀ c, save c = none)
    (hfind : findTask s.tasks id = some old) :
    (UpdateTask ctx save s id r).res
      = .ok (⟨old.id, r.title.getD old.title, r.done.getD old.done,
          r.priority.getD old.priority⟩, true)
    ∧ findTask (UpdateTask ctx save s id r).state.tasks id
      = some ⟨old.id, r.title.getD old.title, r.done.getD old.done,
          r.priority.getD old.priority⟩ := by
  obtain ⟨ts2, h1, h2, h3⟩ := updateFirst_of_find s.tasks id r old hfind
  have hU : UpdateTask ctx save s id r
      = ⟨.ok (applyUpdate old r, true), ⟨ts2, s.nextID⟩, [ts2]⟩ := by
    simp only [UpdateTask, hctx, h1, hs]
  rw [hU]
  refine ⟨?_, ?_⟩
  · show Except.ok (applyUpdate old r, true) = _
    rw [applyUpdate_eq]
  · show findTask ts2 id = _
    rw [applyUpdate_eq] at h2
    exact h2

/-- Claim C5, witness: updating task 1 of ⟨[⟨1, "a", false, "low"⟩], 2⟩
with a request carrying only `done = true` returns the merged record with
title and priority unchanged. -/
theorem c5_update_merge_witness :
    (UpdateTask ctxNone saveOk ⟨[⟨1, "a", false, "low"⟩], 2⟩ 1
        ⟨none, some true, none⟩).res = .ok (⟨1, "a", true, "low"⟩, true) :=
  (c5_update_merge ctxNone saveOk ⟨[⟨1, "a", false, "low"⟩], 2⟩ 1
      ⟨none, some true, none⟩ ⟨1, "a", false, "low"⟩ rfl (fun _ => rfl)
      (by decide)).1

/-- Claim C6: after `Init` on a loaded collection (of positive IDs, per the
data model), `nextID` is 1 on the empty collection, is a strict upper
bound of all loaded IDs, and on a non-empty collection equals (some
member's ID) + 1 — i.e. max existing ID + 1; on the spec's gap scenario
[1, 2, 5] `Init` computes `nextID = 6` and the next create assigns ID 6,
skipping the gaps 3 and 4. -/
theorem c6_init_nextid (L : List Task) (hpos : ∀ t ∈ L, 1 ≤ t.id) :
    calcNextID [] = 1
    ∧ (∀ t ∈ L, t.id < calcNextID L)
    ∧ (L ≠ [] → ∃ t ∈ L, t.id + 1 = calcNextID L)
    ∧ NewService (.ok demoTasks) = .ok (initService demoTasks)
    ∧ (initService demoTasks).nextID = 6
    ∧ (CreateTask ctxNone saveOk (initService demoTasks)
        ⟨0, "x", false, "low"⟩).res = .ok ⟨6, "x", false, ""⟩ := by
  refine ⟨rfl, ?_, ?_, rfl, by decide, by decide⟩
  · intro t ht
    have h1 := mem_le_goFold L 0 t ht
    unfold calcNextID
    omega
  · intro hne
    rcases goFold_attained L 0 with heq | ⟨t, hmem, heq⟩
    · obtain ⟨t, ht⟩ := List.exists_mem_of_ne_nil L hne
      have h1 := mem_le_goFold L 0 t ht
      have h2 := hpos t ht
      rw [heq] at h1
      omega
    · refine ⟨t, hmem, ?_⟩
      unfold calcNextID
      omega

/-- Claim C6, witness: the theorem applied at the gap scenario [1, 2, 5]
gives `nextID = 6`. -/
theorem c6_init_nextid_witness : (initService demoTasks).nextID = 6 :=
  (c6_init_nextid demoTasks (by decide)).2.2.2.2.1

/-- Claim C7: the mutations consult the cancellation signal only at their
entry checkpoint — two contexts agreeing at checkpoint 0 produce
identical results whatever the signal does later, so a cancellation firing
after persistence cannot prevent the commit — and when entry passes and
every save succeeds, whatever was handed to `Storage.Save` is exactly the
collection committed to memory. -/
theorem c7_commit_after_save (ctx ctx2 : Ctx)
    (save : List Task → Option GoError) (s : Service) (inc : Task)
    (id : Int) (r : UpdateTaskRequest) (h0 : ctx 0 = ctx2 0) :
    (CreateTask ctx save s inc = CreateTask ctx2 save s inc
      ∧ UpdateTask ctx save s id r = UpdateTask ctx2 save s id r
      ∧ DeleteTask ctx save s id = DeleteTask ctx2 save s id)
    ∧ (ctx 0 = none → (∀ c, save c = none) →
        ((CreateTask ctx save s inc).saves
            = [(CreateTask ctx save s inc).state.tasks]
          ∧ ((UpdateTask ctx save s id r).saves ≠ [] →
              (UpdateTask ctx save s id r).saves
                = [(UpdateTask ctx save s id r).state.tasks])
          ∧ ((DeleteTask ctx save s id).saves ≠ [] →
              (DeleteTask ctx save s id).saves
                = [(DeleteTask ctx save s id).state.tasks]))) := by
  constructor
  · refine ⟨?_, ?_, ?_⟩ <;> simp only [CreateTask, UpdateTask, DeleteTask, h0]
  · intro hc hs
    refine ⟨?_, ?_, ?_⟩
    · simp only [CreateTask, hc, hs]
    · simp only [UpdateTask, hc]
      split
      · intro h; exact absurd rfl h
      · rw [hs]; intro _; rfl
    · simp only [DeleteTask, hc]
      split
      · intro h; exact absurd rfl h
      · rw [hs]; intro _; rfl

/-- Claim C7, witness: on a concrete create with a successful save, the
persisted candidate equals the committed collection. -/
theorem c7_commit_after_save_witness :
    (CreateTask ctxNone saveOk ⟨[], 1⟩ incT).saves
      = [(CreateTask ctxNone saveOk ⟨[], 1⟩ incT).state.tasks] :=
  ((c7_commit_after_save ctxNone ctxNone saveOk ⟨[], 1⟩ incT 1
      ⟨none, none, none⟩ rfl).2 rfl (fun _ => rfl)).1

/-- Claim C8: when the cancellation signal is already triggered at entry
(checkpoint 0), each of the five operations returns exactly that
cancellation error, leaves the state untouched, performs no slow-I/O call
(List) and passes nothing to `Storage.Save` (mutations). -/
theorem c8_precancelled_noop (ctx : Ctx) (e : GoError)
    (slowRes : Option GoError) (delay : Int)
    (save : List Task → Option GoError) (s : Service) (inc : Task)
    (id : Int) (r : UpdateTaskRequest) (h : ctx 0 = some e) :
    ListTasks ctx slowRes delay s = ⟨.error e, false⟩
    ∧ GetTask ctx s id = .error e
    ∧ CreateTask ctx save s inc = ⟨.error e, s, []⟩
    ∧ UpdateTask ctx save s id r = ⟨.error e, s, []⟩
    ∧ DeleteTask ctx save s id = ⟨.error e, s, []⟩ := by
  refine ⟨?_, ?_, ?_, ?_, ?_⟩ <;>
    simp only [ListTasks, GetTask, CreateTask, UpdateTask, DeleteTask, h]

/-- Claim C8, witness: with an already-cancelled context, `GetTask`
returns the cancellation error. -/
theorem c8_precancelled_noop_witness :
    GetTask (fun _ => some .canceled) ⟨[], 1⟩ 1 = .error .canceled :=
  (c8_precancelled_noop (fun _ => some .canceled) .canceled none 0 saveOk
      ⟨[], 1⟩ incT 1 ⟨none, none, none⟩ rfl).2.1

/-- Claim C9: with no cancellation, `LoadTasks` returns an empty
collection (not an error) on a missing backing file, an empty collection
on existing but blank content, and propagates the parse error on content
the unmarshaller rejects. -/
theorem c9_load_semantics (ctx : Ctx)
    (unmarshal : String → Except GoError (List Task))
    (hctx : ∀ n, ctx n = none) :
    LoadTasks ctx .absent unmarshal = .ok []
    ∧ (∀ c, blank c = true → LoadTasks ctx (.present c) unmarshal = .ok [])
    ∧ (∀ c e, blank c = false → unmarshal c = .error e →
        LoadTasks ctx (.present c) unmarshal = .error e) := by
  refine ⟨?_, ?_, ?_⟩
  · simp [LoadTasks, hctx]
  · intro c hb
    simp [LoadTasks, hctx, hb]
  · intro c e hb hu
    simp [LoadTasks, hctx, hb, hu]

/-- Claim C9, witness: a non-blank file whose content the unmarshaller
rejects yields exactly that parse error. -/
theorem c9_load_semantics_witness :
    LoadTasks ctxNone (.present "xyz") (fun _ => .error (.parseError 0))
      = .error (.parseError 0) :=
  (c9_load_semantics ctxNone (fun _ => .error (.parseError 0))
      (fun _ => rfl)).2.2 "xyz" (.parseError 0) (by decide) rfl

/-- Claim C10: an update of an existing ID whose request carries no field
at all returns the stored record unchanged with found = true, commits a
state equal to the previous one — and still passes the (unchanged)
collection to `Storage.Save`: the no-op update rewrites the backing file
instead of being skipped. -/
theorem c10_noop_update_still_saves (ctx : Ctx)
    (save : List Task → Option GoError) (s : Service) (id : Int)
    (old : Task) (hctx : ctx 0 = none) (hs : ∀ c, save c = none)
    (hfind : findTask s.tasks id = some old) :
    (UpdateTask ctx save s id ⟨none, none, none⟩).res = .ok (old, true)
    ∧ (UpdateTask ctx save s id ⟨none, none, none⟩).state = s
    ∧ (UpdateTask ctx save s id ⟨none, none, none⟩).saves = [s.tasks] := by
  have h1 := updateFirst_none_req s.tasks id old hfind
  have hU : UpdateTask ctx save s id ⟨none, none, none⟩
      = ⟨.ok (old, true), ⟨s.tasks, s.nextID⟩, [s.tasks]⟩ := by
    simp only [UpdateTask, hctx, h1, hs]
  rw [hU]
  exact ⟨rfl, rfl, rfl⟩

/-- Claim C10, witness: a field-less update of existing task 1 leaves the
state intact yet hands the unchanged collection to `Storage.Save`. -/
theorem c10_noop_update_still_saves_witness :
    (UpdateTask ctxNone saveOk ⟨[⟨1, "a", false, "low"⟩], 2⟩ 1
        ⟨none, none, none⟩).saves = [[⟨1, "a", false, "low"⟩]] :=
  (c10_noop_update_still_saves ctxNone saveOk ⟨[⟨1, "a", false, "low"⟩], 2⟩
      1 ⟨1, "a", false, "low"⟩ rfl (fun _ => rfl) (by decide)).2.2

end TaskManager
